import Mathlib

/-!
Verification of the candidate-agreement statement-routing core
(`polkadot/consensus/src/lib.rs` and `error.rs`).

The development shallowly embeds the module's data model and operations:

* pure helpers (`sign_table_statement`, `make_group_info`, the
  `TableContext` queries) become Lean functions;
* the lock-guarded `SharedTableInner` becomes explicit state passing, a
  call sequence being any interleaving the mutex serialises;
* external collaborators (the statement `Table`, the network router, the
  ed25519 signer, the `futures` primitives) are embedded through their
  interfaces, exactly as the module consumes them; theorems quantify over
  every implementation of those interfaces.
-/

/-- `polkadot_primitives::Hash` (`H256`): an opaque 32-byte identifier.
`parent_hash.0` is its raw byte array, here the underlying list. -/
abbrev Hash : Type := { l : List Nat // l.length = 32 }

/-- `primitives::AuthorityId`: an authority's public key, kept opaque. -/
abbrev AuthorityId : Type := Nat

/-- `polkadot_primitives::parachain::Id`: a parachain identifier. -/
abbrev ParaId : Type := Nat

/-- Modelled from the spec: the external `ed25519::Pair` keypair, of which
the module only uses the derived public key (`key.public().0`) and the
signing operation. -/
structure Pair where
  public : AuthorityId
deriving DecidableEq

/-- Modelled from the spec: an `ed25519::Signature`.  Idealised as the
signing key together with the exact message bytes, which captures the
contract the module relies on: a signature is a function of key and
message, and distinct messages yield distinct signatures. -/
structure Signature where
  signer : Pair
  message : List Nat
deriving DecidableEq

/-- Modelled from the spec: `ed25519::Pair::sign` over raw message bytes. -/
def Pair.sign (key : Pair) (message : List Nat) : Signature :=
  { signer := key, message := message }

/-- Modelled from the spec: `parachain::CandidateReceipt`, the commitment
to one candidate block.  The module reads only its sub-chain id (through
the table's summaries) and its content hash `c.hash()`. -/
structure CandidateReceipt where
  parachain_index : ParaId
  hash : Hash
deriving DecidableEq

/-- `table::Statement` (= `table::generic::Statement`): the four statement
variants routed by this module. -/
inductive Statement where
  | candidate (c : CandidateReceipt)
  | valid (h : Hash)
  | invalid (h : Hash)
  | available (h : Hash)
deriving DecidableEq

/-- Modelled from the spec: the `substrate_codec` (`Slicable`) encoding of
`parachain::Statement` (`RawStatement`), external to this module.  Only its
functionality matters here: a statement is serialised to a definite byte
list (a tag followed by the payload). -/
def Statement.encode : Statement → List Nat
  | .candidate c => 1 :: c.parachain_index :: c.hash.val
  | .valid h => 2 :: h.val
  | .invalid h => 3 :: h.val
  | .available h => 4 :: h.val

/-- `table::SignedStatement`: statement + signature + sender. -/
structure SignedStatement where
  statement : Statement
  signature : Signature
  sender : AuthorityId
deriving DecidableEq

/-- Sign a table statement against a parent hash: the message signed is the
encoded statement concatenated with the parent hash bytes
(`encoded.extend(&parent_hash.0)`).  The `GenericStatement → RawStatement`
clone in the source maps each variant to the like-named variant. -/
def sign_table_statement (statement : Statement) (key : Pair) (parent_hash : Hash) : Signature :=
  let raw := match statement with
    | .candidate c => Statement.candidate c
    | .valid h => Statement.valid h
    | .invalid h => Statement.invalid h
    | .available h => Statement.available h
  let encoded := raw.encode ++ parent_hash.val
  key.sign encoded

/-- `GroupInfo`: per-parachain voting configuration.  The `HashSet`s of
guarantors are embedded as lists read only through membership. -/
structure GroupInfo where
  validity_guarantors : List AuthorityId
  availability_guarantors : List AuthorityId
  needed_validity : Nat
  needed_availability : Nat
deriving DecidableEq

/-- `TableContext`: parent fork hash, local key, and the
`HashMap<ParaId, GroupInfo>` embedded as an association list read through
`lookup`. -/
structure TableContext where
  parent_hash : Hash
  key : Pair
  groups : List (ParaId × GroupInfo)

/-- `usize::max_value()` on the 64-bit targets the node builds for. -/
def usizeMaxValue : Nat := 2 ^ 64 - 1

/-- `table::Context::is_member_of`:
`self.groups.get(group).map_or(false, |g| g.validity_guarantors.contains(authority))`. -/
def TableContext.is_member_of (self : TableContext) (authority : AuthorityId) (group : ParaId) : Bool :=
  (self.groups.lookup group).elim false (fun g => decide (authority ∈ g.validity_guarantors))

/-- `table::Context::is_availability_guarantor_of`: same over the
availability-guarantor set. -/
def TableContext.is_availability_guarantor_of (self : TableContext) (authority : AuthorityId) (group : ParaId) : Bool :=
  (self.groups.lookup group).elim false (fun g => decide (authority ∈ g.availability_guarantors))

/-- `table::Context::requisite_votes`: the needed-vote pair, or
`(usize::max_value(), usize::max_value())` on a lookup miss. -/
def TableContext.requisite_votes (self : TableContext) (group : ParaId) : Nat × Nat :=
  (self.groups.lookup group).elim (usizeMaxValue, usizeMaxValue)
    (fun g => (g.needed_validity, g.needed_availability))

/-- `TableContext::local_id`: `self.key.public().0`. -/
def TableContext.local_id (self : TableContext) : AuthorityId :=
  self.key.public

/-- `TableContext::sign_statement`: sign against the parent hash and wrap
with the local id as sender. -/
def TableContext.sign_statement (self : TableContext) (statement : Statement) : SignedStatement :=
  let signature := sign_table_statement statement self.key self.parent_hash
  let local_id := self.key.public
  { statement := statement, signature := signature, sender := local_id }

/-- Modelled from the spec: `parachain::Chain`, one duty entry of the
roster (relay-chain duty or a specific parachain). -/
inductive Chain where
  | Relay
  | Parachain (id : ParaId)
deriving DecidableEq

/-- Modelled from the spec: `parachain::DutyRoster`, the chain-supplied
parallel duty arrays, one entry per authority. -/
structure DutyRoster where
  validator_duty : List Chain
  guarantor_duty : List Chain
deriving DecidableEq

/-- `error::ErrorKind` from `error.rs`; the `error_chain!` pass-through
links to collaborator errors are external and play no role here. -/
inductive ErrorKind where
  | InvalidDutyRosterLength (expected got : Nat)
deriving DecidableEq

/-- Outcome of `make_group_info`.  The code past the two length checks is
an unimplemented stub (`unimpleented!()`, sic) and is embedded as the
distinguished `unimplementedTail` outcome. -/
inductive MakeGroupInfoOutcome where
  | err (e : ErrorKind)
  | unimplementedTail
deriving DecidableEq

/-- `make_group_info`: the two `bail!(ErrorKind::InvalidDutyRosterLength
(authorities.len(), ..))` length checks, then the unimplemented tail.  The
source declares the parameter as `roster` while the body reads
`duty_roster`; the body's identifier can only denote that parameter. -/
def make_group_info (duty_roster : DutyRoster) (authorities : List AuthorityId) : MakeGroupInfoOutcome :=
  if duty_roster.validator_duty.length ≠ authorities.length then
    .err (.InvalidDutyRosterLength authorities.length duty_roster.validator_duty.length)
  else if duty_roster.guarantor_duty.length ≠ authorities.length then
    .err (.InvalidDutyRosterLength authorities.length duty_roster.guarantor_duty.length)
  else
    .unimplementedTail

/-- `table::generic::Summary` as consumed here: the candidate digest and
group id of the statement just imported (`summary.candidate`,
`summary.group_id`); the vote counts the summary also carries are unused
by this module. -/
structure Summary where
  candidate : Hash
  group_id : ParaId
deriving DecidableEq

/-- Modelled from the spec: the external statement `Table` collaborator
(§6), consumed through exactly the two calls this module makes:
`import_statement` (mutating, returning an optional summary) and
`get_candidate`.  State mutation becomes explicit state passing over an
arbitrary state type `σ`; theorems quantify over every implementation. -/
structure TableImpl (σ : Type) where
  import_statement : σ → TableContext → SignedStatement → Option AuthorityId → σ × Option Summary
  get_candidate : σ → Hash → Option CandidateReceipt

/-- `ProducedStatements`: the optional validity and availability
statements a producer derives (`#[derive(Default)]`: both `None`). -/
structure ProducedStatements where
  validity : Option Statement
  availability : Option Statement
deriving DecidableEq

/-- `StatementProducer<D, E>`, generic over the two sub-fetch payloads
exactly as the source is generic over the two router future types. -/
structure StatementProducer (α β : Type) where
  fetch_block_data : Option α
  fetch_extrinsic : Option β
  produced_statements : ProducedStatements
  _key : Pair
deriving DecidableEq

/-- In the import-time model, a scheduled sub-fetch
(`router.fetch_block_data(candidate).into_future().fuse()`) is embedded by
its invocation record: the digest the receipt was looked up under
(`summary.candidate`) and the receipt handed to the router.  The polling
dynamics of the fused futures are modelled separately below. -/
abbrev FetchHandle : Type := Hash × CandidateReceipt

/-- `SharedTableInner`: the lock-guarded mutable round state. -/
structure SharedTableInner (σ : Type) where
  table : σ
  proposed_digest : Option Hash
  checked_validity : List Hash
  checked_availability : List Hash

/-- `std::collections::HashSet::insert`: add the value, reporting `true`
iff it was not already present.  The set is embedded as its element
list. -/
def hsInsert (s : List Hash) (x : Hash) : List Hash × Bool :=
  if x ∈ s then (s, false) else (x :: s, true)

/-- `SharedTableInner::import_statement`: forward to the table; on a
summary, compute the two checking flags with their short-circuit
dedup-set inserts, and schedule fetches for the stored receipt (if any).
Line-by-line mirror of the source; the returned pair is (new inner state,
producer). -/
def SharedTableInner.import_statement {σ : Type} (tbl : TableImpl σ) (context : TableContext)
    (self : SharedTableInner σ) (statement : SignedStatement) (received_from : Option AuthorityId) :
    SharedTableInner σ × StatementProducer FetchHandle FetchHandle :=
  let producer : StatementProducer FetchHandle FetchHandle :=
    { fetch_block_data := none, fetch_extrinsic := none,
      produced_statements := { validity := none, availability := none }, _key := context.key }
  match tbl.import_statement self.table context statement received_from with
  | (t', none) => ({ self with table := t' }, producer)
  | (t', some summary) =>
    let local_id := context.local_id
    let is_validity_member := context.is_member_of local_id summary.group_id
    let is_availability_member := context.is_availability_guarantor_of local_id summary.group_id
    let digest := summary.candidate
    -- checking_validity = is_validity_member
    --   && proposed_digest.map_or(true, |d| d != digest)
    --   && checked_validity.insert(digest)   (short-circuit: insert runs last)
    let v :=
      if is_validity_member && (self.proposed_digest.elim true fun d => decide (d ≠ digest)) then
        hsInsert self.checked_validity digest
      else (self.checked_validity, false)
    -- checking_availability = is_availability_member && checked_availability.insert(digest)
    let a :=
      if is_availability_member then hsInsert self.checked_availability digest
      else (self.checked_availability, false)
    let checking_validity := v.2
    let checking_availability := a.2
    let producer :=
      if checking_validity || checking_availability then
        match tbl.get_candidate t' digest with
        | none => producer  -- table inconsistency: no fetch scheduled
        | some candidate =>
          { producer with
            fetch_block_data := if checking_validity then some (digest, candidate) else none,
            fetch_extrinsic := if checking_availability then some (digest, candidate) else none }
      else producer
    ({ table := t', proposed_digest := self.proposed_digest,
       checked_validity := v.1, checked_availability := a.1 }, producer)

/-- `SharedTable::new`: fresh context plus fresh inner state (empty dedup
sets, no proposal) around the collaborator table's initial state `t0`
(`Table::default()`). -/
def SharedTable.new {σ : Type} (groups : List (ParaId × GroupInfo)) (key : Pair)
    (parent_hash : Hash) (t0 : σ) : TableContext × SharedTableInner σ :=
  ({ parent_hash := parent_hash, key := key, groups := groups },
   { table := t0, proposed_digest := none, checked_validity := [], checked_availability := [] })

/-- `SharedTable::import_statement`: take the lock and run the inner
inner-state import; the lock becomes sequential state threading. -/
def SharedTable.import_statement {σ : Type} (tbl : TableImpl σ) (context : TableContext)
    (st : SharedTableInner σ) (statement : SignedStatement) (received_from : Option AuthorityId) :
    SharedTableInner σ × StatementProducer FetchHandle FetchHandle :=
  SharedTableInner.import_statement tbl context st statement received_from

/-- `SharedTable::sign_and_import`: for a `Candidate` statement first
record its hash as `proposed_digest` (under the same lock acquisition as
the import), then sign and import locally (`received_from = None`). -/
def SharedTable.sign_and_import {σ : Type} (tbl : TableImpl σ) (context : TableContext)
    (st : SharedTableInner σ) (statement : Statement) :
    SharedTableInner σ × StatementProducer FetchHandle FetchHandle :=
  let proposed_digest := match statement with
    | .candidate c => some c.hash
    | _ => none
  let signed_statement := context.sign_statement statement
  let st1 := match proposed_digest with
    | some _ => { st with proposed_digest := proposed_digest }
    | none => st
  SharedTableInner.import_statement tbl context st1 signed_statement none

/-- `SharedTable::import_statements`: import a batch under a single lock
acquisition, collecting the producers in order. -/
def SharedTable.import_statements {σ : Type} (tbl : TableImpl σ) (context : TableContext) :
    SharedTableInner σ → List (SignedStatement × Option AuthorityId) →
    SharedTableInner σ × List (StatementProducer FetchHandle FetchHandle)
  | st, [] => (st, [])
  | st, (statement, received_from) :: rest =>
    let r := SharedTableInner.import_statement tbl context st statement received_from
    let rr := SharedTable.import_statements tbl context r.1 rest
    (rr.1, r.2 :: rr.2)

/-- One call into the public statement-import API of a `SharedTable`. -/
inductive TableOp where
  | single (statement : SignedStatement) (received_from : Option AuthorityId)
  | signAndImport (statement : Statement)
  | batch (items : List (SignedStatement × Option AuthorityId))

/-- Run one API call, returning the producers it hands back. -/
def runOp {σ : Type} (tbl : TableImpl σ) (context : TableContext) (st : SharedTableInner σ) :
    TableOp → SharedTableInner σ × List (StatementProducer FetchHandle FetchHandle)
  | .single statement received_from =>
    let r := SharedTable.import_statement tbl context st statement received_from
    (r.1, [r.2])
  | .signAndImport statement =>
    let r := SharedTable.sign_and_import tbl context st statement
    (r.1, [r.2])
  | .batch items => SharedTable.import_statements tbl context st items

/-- Run a serialised sequence of API calls, concatenating all returned
producers in order. -/
def runOps {σ : Type} (tbl : TableImpl σ) (context : TableContext) :
    SharedTableInner σ → List TableOp →
    SharedTableInner σ × List (StatementProducer FetchHandle FetchHandle)
  | st, [] => (st, [])
  | st, op :: ops =>
    let r := runOp tbl context st op
    let rr := runOps tbl context r.1 ops
    (rr.1, r.2 ++ rr.2)

/-- The producer has a block-data (validity) fetch scheduled for digest
`D`. -/
def hasValidityFetchFor (D : Hash) (p : StatementProducer FetchHandle FetchHandle) : Bool :=
  p.fetch_block_data.elim false (fun x => decide (x.1 = D))

/-- The producer has an extrinsic (availability) fetch scheduled for
digest `D`. -/
def hasAvailabilityFetchFor (D : Hash) (p : StatementProducer FetchHandle FetchHandle) : Bool :=
  p.fetch_extrinsic.elim false (fun x => decide (x.1 = D))

/-- Modelled from the spec: `parachain::BlockData`, the opaque candidate
body bytes. -/
structure BlockData where
  bytes : List Nat
deriving DecidableEq

/-- Modelled from the spec: `parachain::Extrinsic`, the opaque
availability side-data. -/
structure Extrinsic where
  bytes : List Nat
deriving DecidableEq

/-- One poll outcome of an underlying fetch future
(`Poll<T, E> = Result<Async<T>, E>`). -/
inductive FetchPoll (α ε : Type) where
  | ready (a : α)
  | notReady
  | err (e : ε)

/-- Modelled from the spec: `future::Fuse` around a sub-fetch, "wrapped so
a completed sub-future is never polled again".  The underlying future is
represented by its poll behaviour (outcome of its `n`-th poll); `spent`
mirrors the fuse's `future = None` after the future resolves or errors. -/
structure Fuse (α ε : Type) where
  behavior : Nat → FetchPoll α ε
  polled : Nat
  spent : Bool

/-- `Fuse::poll`: a spent fuse yields `NotReady` forever; otherwise poll
the underlying future, marking the fuse spent on `Ready` or `Err`. -/
def Fuse.poll {α ε : Type} (f : Fuse α ε) : FetchPoll α ε × Fuse α ε :=
  if f.spent then (.notReady, f)
  else
    match f.behavior f.polled with
    | .ready a => (.ready a, { f with polled := f.polled + 1, spent := true })
    | .err e => (.err e, { f with polled := f.polled + 1, spent := true })
    | .notReady => (.notReady, { f with polled := f.polled + 1 })

/-- Result of one `StatementProducer::poll` call.  `panicked` marks the
`unimplemented!()` stubs reached when a fetch completes. -/
inductive PollResult (α ε : Type) where
  | ready (a : α)
  | notReady
  | err (e : ε)
  | panicked

/-- `true` iff the poll produced (`Async::Ready`) a value. -/
def PollResult.isReady {α ε : Type} : PollResult α ε → Bool
  | .ready _ => true
  | _ => false

/-- A `StatementProducer` whose sub-fetch slots hold fused futures: the
polling-time view of the producer. -/
abbrev PollProducer (ε : Type) : Type :=
  StatementProducer (Fuse BlockData ε) (Fuse Extrinsic ε)

/-- Tail of `StatementProducer::poll` after both sub-fetches were handled:
`if done { Ok(Async::Ready(mem::replace(&mut self.produced_statements,
Default::default()))) } else { Ok(Async::NotReady) }`. -/
def pollFinish {ε : Type} (self : PollProducer ε) (done : Bool) :
    PollResult ProducedStatements ε × PollProducer ε :=
  if done then
    (.ready self.produced_statements,
     { self with produced_statements := { validity := none, availability := none } })
  else (.notReady, self)

/-- The `fetch_extrinsic` arm of `StatementProducer::poll`: `Ready`
reaches the `unimplemented!()` availability stub; `Err` propagates through
`?`; `NotReady` clears `done`. -/
def pollRest {ε : Type} (self : PollProducer ε) (done : Bool) :
    PollResult ProducedStatements ε × PollProducer ε :=
  match self.fetch_extrinsic with
  | some g =>
    match Fuse.poll g with
    | (.ready _extrinsic, g1) => (.panicked, { self with fetch_extrinsic := some g1 })
    | (.err e, g1) => (.err e, { self with fetch_extrinsic := some g1 })
    | (.notReady, g1) => pollFinish { self with fetch_extrinsic := some g1 } false
  | none => pollFinish self done

/-- `StatementProducer::poll`: `done` starts `true`; the `fetch_block_data`
arm runs first (`Ready` reaches the `unimplemented!()` validation stub,
`Err` propagates through `?`, `NotReady` clears `done`), then the
`fetch_extrinsic` arm, then the `done` check. -/
def producerPoll {ε : Type} (self : PollProducer ε) :
    PollResult ProducedStatements ε × PollProducer ε :=
  match self.fetch_block_data with
  | some f =>
    match Fuse.poll f with
    | (.ready _block_data, f1) => (.panicked, { self with fetch_block_data := some f1 })
    | (.err e, f1) => (.err e, { self with fetch_block_data := some f1 })
    | (.notReady, f1) => pollRest { self with fetch_block_data := some f1 } false
  | none => pollRest self true

/-- Result of the `(n+1)`-th poll of the producer, threading its state. -/
def pollIter {ε : Type} (self : PollProducer ε) :
    Nat → PollResult ProducedStatements ε × PollProducer ε
  | 0 => producerPoll self
  | n + 1 => pollIter (producerPoll self).2 n

/-- Some present sub-fetch slot holds a spent fuse. -/
def spentPresent {ε : Type} (self : PollProducer ε) : Prop :=
  (∃ f, self.fetch_block_data = some f ∧ f.spent = true) ∨
  (∃ g, self.fetch_extrinsic = some g ∧ g.spent = true)

/-! Concrete instances used to exercise the definitions on explicit
inputs (witnesses and counterexamples). -/

/-- A concrete digest: 32 zero bytes. -/
def hashA : Hash := ⟨List.replicate 32 0, rfl⟩

/-- A concrete digest: 32 one bytes. -/
def hashB : Hash := ⟨List.replicate 32 1, rfl⟩

/-- A concrete digest: 32 two bytes. -/
def hashC : Hash := ⟨List.replicate 32 2, rfl⟩

/-- A concrete receipt for parachain 0 with digest `hashA`. -/
def receiptA : CandidateReceipt := { parachain_index := 0, hash := hashA }

/-- A concrete receipt for parachain 0 with digest `hashB`. -/
def receiptB : CandidateReceipt := { parachain_index := 0, hash := hashB }

/-- The local signing key of the concrete runs. -/
def keyLocal : Pair := { public := 10 }

/-- A concrete group for parachain 0: the local authority is a validity
guarantor and not an availability guarantor. -/
def groupA : GroupInfo :=
  { validity_guarantors := [10], availability_guarantors := [],
    needed_validity := 2, needed_availability := 1 }

/-- A concrete round context over `groupA`. -/
def ctxA : TableContext :=
  { parent_hash := hashC, key := keyLocal, groups := [(0, groupA)] }

/-- A concrete statement-table implementation of the collaborator
interface: the state is the list of stored receipts; a `Candidate`
statement stores its receipt (duplicates make no progress) and a vote
about a digest reports a summary only if the receipt is already stored —
the receipt-before-vote ordering the spec requires of the collaborator. -/
def listTable : TableImpl (List CandidateReceipt) :=
  { import_statement := fun ts _context s _received_from =>
      match s.statement with
      | .candidate c =>
        if c ∈ ts then (ts, none)
        else (c :: ts, some { candidate := c.hash, group_id := c.parachain_index })
      | .valid h | .invalid h | .available h =>
        match ts.find? (fun c => decide (c.hash = h)) with
        | some c => (ts, some { candidate := h, group_id := c.parachain_index })
        | none => (ts, none),
    get_candidate := fun ts h => ts.find? (fun c => decide (c.hash = h)) }

/-- A `Valid(hashA)` statement as signed by some remote authority 99. -/
def remoteValidA : SignedStatement :=
  { statement := .valid hashA, signature := { signer := { public := 99 }, message := [] },
    sender := 99 }

/-- A table implementation that reports a summary about `hashA` in group 0
for every import but stores no receipts: the "table inconsistency" case in
which `get_candidate` misses. -/
def inconsistentTable : TableImpl Unit :=
  { import_statement := fun _u _context _s _received_from =>
      ((), some { candidate := hashA, group_id := 0 }),
    get_candidate := fun _u _h => none }

/-- A table implementation that never makes progress. -/
def stuckTable : TableImpl Unit :=
  { import_statement := fun _u _context _s _received_from => ((), none),
    get_candidate := fun _u _h => none }

/-- A context in which the local authority guarantees both validity and
availability for parachain 0. -/
def ctxBoth : TableContext :=
  { parent_hash := hashC, key := keyLocal,
    groups := [(0, { validity_guarantors := [10], availability_guarantors := [10],
                     needed_validity := 2, needed_availability := 1 })] }

/-- The API call does not move `proposed_digest` away from `some D`:
anything except a `sign_and_import` of a `Candidate` whose receipt hash
differs from `D`. -/
def keepsProposal (D : Hash) : TableOp → Bool
  | .signAndImport (.candidate c) => decide (c.hash = D)
  | _ => true

/-- The concrete call sequence refuting C2 as stated: propose a candidate
with digest `hashA`, then propose a different candidate (digest `hashB`),
then import a remote `Valid(hashA)` vote. -/
def replacedProposalOps : List TableOp :=
  [.signAndImport (.candidate receiptA),
   .signAndImport (.candidate receiptB),
   .single remoteValidA none]

/-- A producer whose block-data fetch errors (with error `7`) on its
first poll. -/
def erroringProducer : PollProducer Nat :=
  { fetch_block_data := some { behavior := fun _ => .err 7, polled := 0, spent := false },
    fetch_extrinsic := none,
    produced_statements := { validity := none, availability := none }, _key := keyLocal }

/-! Theorems. -/

/-- C3: for every statement variant, signing key, and pair of distinct
parent-fork hashes, `sign_table_statement` produces different signatures:
the messages differ in their equal-length parent-hash suffixes. -/
theorem sign_table_statement_fork_isolation (s : Statement) (key : Pair) (fork1 fork2 : Hash)
    (hne : fork1 ≠ fork2) :
    sign_table_statement s key fork1 ≠ sign_table_statement s key fork2 := by
  intro heq
  apply hne
  apply Subtype.ext
  cases s with
  | candidate c => exact List.append_cancel_left (congrArg Signature.message heq)
  | valid h => exact List.append_cancel_left (congrArg Signature.message heq)
  | invalid h => exact List.append_cancel_left (congrArg Signature.message heq)
  | available h => exact List.append_cancel_left (congrArg Signature.message heq)

/-- Witness for C3 at a concrete statement, key, and hash pair. -/
theorem sign_table_statement_fork_isolation_witness :
    hashA ≠ hashB ∧
    sign_table_statement (.valid hashA) keyLocal hashA ≠
      sign_table_statement (.valid hashA) keyLocal hashB :=
  ⟨by decide, sign_table_statement_fork_isolation (.valid hashA) keyLocal hashA hashB (by decide)⟩

/-- C5: whenever either duty list's length differs from the authority
count, `make_group_info` returns the `InvalidDutyRosterLength` error
carrying the authority count as expected length and the mismatching
list's length as actual length, and produces no group mapping. -/
theorem make_group_info_length_mismatch (duty_roster : DutyRoster) (authorities : List AuthorityId)
    (h : duty_roster.validator_duty.length ≠ authorities.length ∨
         duty_roster.guarantor_duty.length ≠ authorities.length) :
    ∃ got, make_group_info duty_roster authorities =
        .err (.InvalidDutyRosterLength authorities.length got) ∧
      got ≠ authorities.length ∧
      (got = duty_roster.validator_duty.length ∨ got = duty_roster.guarantor_duty.length) := by
  unfold make_group_info
  by_cases h1 : duty_roster.validator_duty.length = authorities.length
  · have h2 : duty_roster.guarantor_duty.length ≠ authorities.length :=
      h.resolve_left (not_not_intro h1)
    rw [if_neg (not_not_intro h1), if_pos h2]
    exact ⟨duty_roster.guarantor_duty.length, rfl, h2, Or.inr rfl⟩
  · rw [if_pos h1]
    exact ⟨duty_roster.validator_duty.length, rfl, h1, Or.inl rfl⟩

/-- Witness for C5: an empty guarantor-duty list against one authority. -/
theorem make_group_info_length_mismatch_witness :
    ((DutyRoster.validator_duty ⟨[Chain.Relay], []⟩).length ≠ [10].length ∨
     (DutyRoster.guarantor_duty ⟨[Chain.Relay], []⟩).length ≠ [10].length) ∧
    ∃ got, make_group_info ⟨[Chain.Relay], []⟩ [10] =
        .err (.InvalidDutyRosterLength ([10].length) got) ∧
      got ≠ [10].length ∧
      (got = (DutyRoster.validator_duty ⟨[Chain.Relay], []⟩).length ∨
       got = (DutyRoster.guarantor_duty ⟨[Chain.Relay], []⟩).length) :=
  ⟨Or.inr (by decide), make_group_info_length_mismatch ⟨[Chain.Relay], []⟩ [10] (Or.inr (by decide))⟩

/-- C6: for a `ParaId` with no entry in the group map, `requisite_votes`
returns the maximal threshold pair and both membership queries answer
`false` for every authority. -/
theorem unknown_para_failsafe (context : TableContext) (group : ParaId) (authority : AuthorityId)
    (h : context.groups.lookup group = none) :
    context.requisite_votes group = (usizeMaxValue, usizeMaxValue) ∧
    context.is_member_of authority group = false ∧
    context.is_availability_guarantor_of authority group = false := by
  refine ⟨?_, ?_, ?_⟩ <;>
    simp [TableContext.requisite_votes, TableContext.is_member_of,
      TableContext.is_availability_guarantor_of, h]

/-- Witness for C6: parachain 5 is absent from `ctxA`'s group map. -/
theorem unknown_para_failsafe_witness :
    ctxA.groups.lookup 5 = none ∧
    (ctxA.requisite_votes 5 = (usizeMaxValue, usizeMaxValue) ∧
     ctxA.is_member_of 10 5 = false ∧
     ctxA.is_availability_guarantor_of 10 5 = false) :=
  ⟨rfl, unknown_para_failsafe ctxA 5 10 rfl⟩

/-- C7: a producer with neither fetch scheduled resolves on its first poll
to `ProducedStatements` with both fields `None` (and leaves no pending
work). -/
theorem empty_producer_resolves_immediately (ε : Type) (key : Pair) :
    producerPoll (ε := ε)
      { fetch_block_data := none, fetch_extrinsic := none,
        produced_statements := { validity := none, availability := none }, _key := key } =
    (.ready { validity := none, availability := none },
     { fetch_block_data := none, fetch_extrinsic := none,
       produced_statements := { validity := none, availability := none }, _key := key }) := rfl

/-- Witness for C7 at a concrete error type and key. -/
theorem empty_producer_resolves_immediately_witness :
    producerPoll (ε := Unit)
      { fetch_block_data := none, fetch_extrinsic := none,
        produced_statements := { validity := none, availability := none }, _key := keyLocal } =
    (.ready { validity := none, availability := none },
     { fetch_block_data := none, fetch_extrinsic := none,
       produced_statements := { validity := none, availability := none }, _key := keyLocal }) :=
  empty_producer_resolves_immediately Unit keyLocal

/-- C4 (code bug): when a sub-fetch completes successfully, polling the
producer does not derive a `Valid`/`Invalid` (resp. `Available`)
statement — it reaches the `unimplemented!()` stub and panics, for the
block-data fetch and the extrinsic fetch alike. -/
theorem producer_fetch_ready_hits_unimplemented :
    (producerPoll (ε := Unit)
      { fetch_block_data := some { behavior := fun _ => .ready { bytes := [] }, polled := 0, spent := false },
        fetch_extrinsic := none,
        produced_statements := { validity := none, availability := none }, _key := keyLocal }).1 =
      .panicked ∧
    (producerPoll (ε := Unit)
      { fetch_block_data := none,
        fetch_extrinsic := some { behavior := fun _ => .ready { bytes := [] }, polled := 0, spent := false },
        produced_statements := { validity := none, availability := none }, _key := keyLocal }).1 =
      .panicked :=
  ⟨rfl, rfl⟩

/-! Lemmas about a single `SharedTableInner::import_statement` call. -/

/-- One import never changes `proposed_digest`. -/
theorem imp_proposed {σ : Type} (tbl : TableImpl σ) (context : TableContext)
    (self : SharedTableInner σ) (statement : SignedStatement) (received_from : Option AuthorityId) :
    (SharedTableInner.import_statement tbl context self statement received_from).1.proposed_digest =
      self.proposed_digest := by
  unfold SharedTableInner.import_statement
  rcases htbl : tbl.import_statement self.table context statement received_from with ⟨t', osum⟩
  cases osum with
  | none => rfl
  | some su => rfl

/-- One import never removes a digest from `checked_validity`. -/
theorem imp_cv_mono {σ : Type} (tbl : TableImpl σ) (context : TableContext)
    (self : SharedTableInner σ) (statement : SignedStatement) (received_from : Option AuthorityId)
    (x : Hash) (hx : x ∈ self.checked_validity) :
    x ∈ (SharedTableInner.import_statement tbl context self statement received_from).1.checked_validity := by
  unfold SharedTableInner.import_statement
  rcases htbl : tbl.import_statement self.table context statement received_from with ⟨t', osum⟩
  cases osum with
  | none => simpa using hx
  | some su =>
    dsimp only
    unfold hsInsert
    split
    · split
      · exact hx
      · exact List.mem_cons_of_mem _ hx
    · exact hx

/-- If the returned producer has a validity fetch for `D`, this import
freshly inserted `D` into `checked_validity`. -/
theorem imp_val_fetch {σ : Type} (tbl : TableImpl σ) (context : TableContext)
    (self : SharedTableInner σ) (statement : SignedStatement) (received_from : Option AuthorityId)
    (D : Hash) :
    hasValidityFetchFor D (SharedTableInner.import_statement tbl context self statement received_from).2 = true →
      D ∉ self.checked_validity ∧
      D ∈ (SharedTableInner.import_statement tbl context self statement received_from).1.checked_validity := by
  unfold SharedTableInner.import_statement
  rcases htbl : tbl.import_statement self.table context statement received_from with ⟨t', osum⟩
  cases osum with
  | none => intro h; simp [hasValidityFetchFor] at h
  | some su =>
    dsimp only
    unfold hsInsert
    repeat' split
    all_goals intro h
    all_goals simp_all [hasValidityFetchFor]

/-- If the returned producer has an availability fetch for `D`, this very
call freshly inserted `D` into `checked_availability`. -/
theorem imp_avail_fetch {σ : Type} (tbl : TableImpl σ) (context : TableContext)
    (self : SharedTableInner σ) (statement : SignedStatement) (received_from : Option AuthorityId)
    (D : Hash) :
    hasAvailabilityFetchFor D (SharedTableInner.import_statement tbl context self statement received_from).2 = true →
      D ∉ self.checked_availability ∧
      D ∈ (SharedTableInner.import_statement tbl context self statement received_from).1.checked_availability := by
  unfold SharedTableInner.import_statement
  rcases htbl : tbl.import_statement self.table context statement received_from with ⟨t', osum⟩
  cases osum with
  | none => intro h; simp [hasAvailabilityFetchFor] at h
  | some su =>
    dsimp only
    unfold hsInsert
    repeat' split
    all_goals intro h
    all_goals simp_all [hasAvailabilityFetchFor]

/-- Self-trust at a single import: while `proposed_digest = some D`, no
validity fetch for `D` is ever scheduled by the call. -/
theorem imp_selftrust {σ : Type} (tbl : TableImpl σ) (context : TableContext)
    (self : SharedTableInner σ) (statement : SignedStatement) (received_from : Option AuthorityId)
    (D : Hash) (hprop : self.proposed_digest = some D) :
    hasValidityFetchFor D (SharedTableInner.import_statement tbl context self statement received_from).2 = false := by
  unfold SharedTableInner.import_statement
  rcases htbl : tbl.import_statement self.table context statement received_from with ⟨t', osum⟩
  cases osum with
  | none => simp [hasValidityFetchFor]
  | some su =>
    dsimp only
    rw [hprop]
    unfold hsInsert
    repeat' split
    all_goals simp_all [hasValidityFetchFor]
    all_goals (intro hEq; subst hEq; simp_all)

/-- One import never removes a digest from `checked_availability`. -/
theorem imp_ca_mono {σ : Type} (tbl : TableImpl σ) (context : TableContext)
    (self : SharedTableInner σ) (statement : SignedStatement) (received_from : Option AuthorityId)
    (x : Hash) (hx : x ∈ self.checked_availability) :
    x ∈ (SharedTableInner.import_statement tbl context self statement received_from).1.checked_availability := by
  unfold SharedTableInner.import_statement
  rcases htbl : tbl.import_statement self.table context statement received_from with ⟨t', osum⟩
  cases osum with
  | none => simpa using hx
  | some su =>
    dsimp only
    unfold hsInsert
    split
    · split
      · exact hx
      · exact List.mem_cons_of_mem _ hx
    · exact hx

/-! Lemmas lifting the single-import facts to batches
(`import_statements`), single API calls, and call sequences. -/

/-- A batch import never changes `proposed_digest`. -/
theorem imports_proposed {σ : Type} (tbl : TableImpl σ) (context : TableContext)
    (items : List (SignedStatement × Option AuthorityId)) :
    ∀ st : SharedTableInner σ,
      (SharedTable.import_statements tbl context st items).1.proposed_digest = st.proposed_digest := by
  induction items with
  | nil => intro st; rfl
  | cons hd tl ih =>
    intro st
    rcases hd with ⟨s, rf⟩
    simp only [SharedTable.import_statements]
    rw [ih, imp_proposed]

/-- A batch import never removes a digest from `checked_validity`. -/
theorem imports_cv_mono {σ : Type} (tbl : TableImpl σ) (context : TableContext)
    (items : List (SignedStatement × Option AuthorityId)) (x : Hash) :
    ∀ st : SharedTableInner σ, x ∈ st.checked_validity →
      x ∈ (SharedTable.import_statements tbl context st items).1.checked_validity := by
  induction items with
  | nil => intro st hx; exact hx
  | cons hd tl ih =>
    intro st hx
    rcases hd with ⟨s, rf⟩
    simp only [SharedTable.import_statements]
    exact ih _ (imp_cv_mono tbl context st s rf x hx)

/-- A batch import never removes a digest from `checked_availability`. -/
theorem imports_ca_mono {σ : Type} (tbl : TableImpl σ) (context : TableContext)
    (items : List (SignedStatement × Option AuthorityId)) (x : Hash) :
    ∀ st : SharedTableInner σ, x ∈ st.checked_availability →
      x ∈ (SharedTable.import_statements tbl context st items).1.checked_availability := by
  induction items with
  | nil => intro st hx; exact hx
  | cons hd tl ih =>
    intro st hx
    rcases hd with ⟨s, rf⟩
    simp only [SharedTable.import_statements]
    exact ih _ (imp_ca_mono tbl context st s rf x hx)

/-- Across one batch, at most one producer (none, once `D` is already
checked) carries a validity fetch for `D`. -/
theorem imports_val_count {σ : Type} (tbl : TableImpl σ) (context : TableContext)
    (items : List (SignedStatement × Option AuthorityId)) (D : Hash) :
    ∀ st : SharedTableInner σ,
      ((SharedTable.import_statements tbl context st items).2.countP (hasValidityFetchFor D)) ≤
        if D ∈ st.checked_validity then 0 else 1 := by
  induction items with
  | nil => intro st; simp [SharedTable.import_statements]
  | cons hd tl ih =>
    intro st
    rcases hd with ⟨s, rf⟩
    simp only [SharedTable.import_statements, List.countP_cons]
    cases hv : hasValidityFetchFor D (SharedTableInner.import_statement tbl context st s rf).2 with
    | true =>
      obtain ⟨hnot, hin⟩ := imp_val_fetch tbl context st s rf D hv
      have htail := ih (SharedTableInner.import_statement tbl context st s rf).1
      rw [if_pos hin] at htail
      rw [if_neg hnot]
      have hone : (if (true = true) then (1 : Nat) else 0) = 1 := if_pos rfl
      rw [hone]
      omega
    | false =>
      have htail := ih (SharedTableInner.import_statement tbl context st s rf).1
      have hzero : (if (false = true) then (1 : Nat) else 0) = 0 := if_neg (by simp)
      rw [hzero]
      by_cases hst : D ∈ st.checked_validity
      · rw [if_pos (imp_cv_mono tbl context st s rf D hst)] at htail
        rw [if_pos hst]
        omega
      · rw [if_neg hst]
        have hle : ((SharedTable.import_statements tbl context
            (SharedTableInner.import_statement tbl context st s rf).1 tl).2.countP
              (hasValidityFetchFor D)) ≤ 1 := by
          refine le_trans htail ?_
          split <;> omega
        omega

/-- Across one batch, at most one producer carries an availability fetch
for `D`. -/
theorem imports_avail_count {σ : Type} (tbl : TableImpl σ) (context : TableContext)
    (items : List (SignedStatement × Option AuthorityId)) (D : Hash) :
    ∀ st : SharedTableInner σ,
      ((SharedTable.import_statements tbl context st items).2.countP (hasAvailabilityFetchFor D)) ≤
        if D ∈ st.checked_availability then 0 else 1 := by
  induction items with
  | nil => intro st; simp [SharedTable.import_statements]
  | cons hd tl ih =>
    intro st
    rcases hd with ⟨s, rf⟩
    simp only [SharedTable.import_statements, List.countP_cons]
    cases hv : hasAvailabilityFetchFor D (SharedTableInner.import_statement tbl context st s rf).2 with
    | true =>
      obtain ⟨hnot, hin⟩ := imp_avail_fetch tbl context st s rf D hv
      have htail := ih (SharedTableInner.import_statement tbl context st s rf).1
      rw [if_pos hin] at htail
      rw [if_neg hnot]
      have hone : (if (true = true) then (1 : Nat) else 0) = 1 := if_pos rfl
      rw [hone]
      omega
    | false =>
      have htail := ih (SharedTableInner.import_statement tbl context st s rf).1
      have hzero : (if (false = true) then (1 : Nat) else 0) = 0 := if_neg (by simp)
      rw [hzero]
      by_cases hst : D ∈ st.checked_availability
      · rw [if_pos (imp_ca_mono tbl context st s rf D hst)] at htail
        rw [if_pos hst]
        omega
      · rw [if_neg hst]
        have hle : ((SharedTable.import_statements tbl context
            (SharedTableInner.import_statement tbl context st s rf).1 tl).2.countP
              (hasAvailabilityFetchFor D)) ≤ 1 := by
          refine le_trans htail ?_
          split <;> omega
        omega

/-- Self-trust across a batch: while `proposed_digest = some D` no
producer carries a validity fetch for `D`, and the proposal stays `D`. -/
theorem imports_selftrust {σ : Type} (tbl : TableImpl σ) (context : TableContext)
    (items : List (SignedStatement × Option AuthorityId)) (D : Hash) :
    ∀ st : SharedTableInner σ, st.proposed_digest = some D →
      ((SharedTable.import_statements tbl context st items).2.countP (hasValidityFetchFor D)) = 0 := by
  induction items with
  | nil => intro st _; simp [SharedTable.import_statements]
  | cons hd tl ih =>
    intro st hprop
    rcases hd with ⟨s, rf⟩
    simp only [SharedTable.import_statements, List.countP_cons]
    rw [imp_selftrust tbl context st s rf D hprop,
      ih _ (by rw [imp_proposed]; exact hprop)]
    rfl

/-- Any single API call never removes a digest from `checked_validity`. -/
theorem runOp_cv_mono {σ : Type} (tbl : TableImpl σ) (context : TableContext) (op : TableOp)
    (x : Hash) : ∀ st : SharedTableInner σ, x ∈ st.checked_validity →
      x ∈ (runOp tbl context st op).1.checked_validity := by
  cases op with
  | single s rf => intro st hx; exact imp_cv_mono tbl context st s rf x hx
  | signAndImport s =>
    intro st hx
    unfold runOp SharedTable.sign_and_import
    dsimp only
    split
    · exact imp_cv_mono tbl context _ _ none x hx
    · exact imp_cv_mono tbl context _ _ none x hx
  | batch items => intro st hx; exact imports_cv_mono tbl context items x st hx

/-- Any single API call never removes a digest from
`checked_availability`. -/
theorem runOp_ca_mono {σ : Type} (tbl : TableImpl σ) (context : TableContext) (op : TableOp)
    (x : Hash) : ∀ st : SharedTableInner σ, x ∈ st.checked_availability →
      x ∈ (runOp tbl context st op).1.checked_availability := by
  cases op with
  | single s rf => intro st hx; exact imp_ca_mono tbl context st s rf x hx
  | signAndImport s =>
    intro st hx
    unfold runOp SharedTable.sign_and_import
    dsimp only
    split
    · exact imp_ca_mono tbl context _ _ none x hx
    · exact imp_ca_mono tbl context _ _ none x hx
  | batch items => intro st hx; exact imports_ca_mono tbl context items x st hx

/-- A one-producer list (as returned by the single-import entry points)
contains a validity fetch for `D` only if `D` lands in
`checked_validity`. -/
theorem single_val_fetch_mem {σ : Type} (tbl : TableImpl σ) (context : TableContext)
    (st0 : SharedTableInner σ) (ss : SignedStatement) (rf : Option AuthorityId) (D : Hash)
    (h : 0 < List.countP (hasValidityFetchFor D)
        [(SharedTableInner.import_statement tbl context st0 ss rf).2]) :
    D ∈ (SharedTableInner.import_statement tbl context st0 ss rf).1.checked_validity := by
  cases hv : hasValidityFetchFor D (SharedTableInner.import_statement tbl context st0 ss rf).2 with
  | true => exact (imp_val_fetch tbl context st0 ss rf D hv).2
  | false => simp [List.countP_cons, hv] at h

/-- A one-producer list contains an availability fetch for `D` only if
`D` lands in `checked_availability`. -/
theorem single_avail_fetch_mem {σ : Type} (tbl : TableImpl σ) (context : TableContext)
    (st0 : SharedTableInner σ) (ss : SignedStatement) (rf : Option AuthorityId) (D : Hash)
    (h : 0 < List.countP (hasAvailabilityFetchFor D)
        [(SharedTableInner.import_statement tbl context st0 ss rf).2]) :
    D ∈ (SharedTableInner.import_statement tbl context st0 ss rf).1.checked_availability := by
  cases hv : hasAvailabilityFetchFor D (SharedTableInner.import_statement tbl context st0 ss rf).2 with
  | true => exact (imp_avail_fetch tbl context st0 ss rf D hv).2
  | false => simp [List.countP_cons, hv] at h

/-- Validity-fetch count bound for a one-producer list. -/
theorem single_val_count {σ : Type} (tbl : TableImpl σ) (context : TableContext)
    (st0 : SharedTableInner σ) (ss : SignedStatement) (rf : Option AuthorityId) (D : Hash) :
    List.countP (hasValidityFetchFor D)
        [(SharedTableInner.import_statement tbl context st0 ss rf).2] ≤
      if D ∈ st0.checked_validity then 0 else 1 := by
  cases hv : hasValidityFetchFor D (SharedTableInner.import_statement tbl context st0 ss rf).2 with
  | true =>
    rw [if_neg (imp_val_fetch tbl context st0 ss rf D hv).1]
    simp [List.countP_cons, hv]
  | false =>
    have : List.countP (hasValidityFetchFor D)
        [(SharedTableInner.import_statement tbl context st0 ss rf).2] = 0 := by
      simp [List.countP_cons, hv]
    rw [this]
    omega

/-- Availability-fetch count bound for a one-producer list. -/
theorem single_avail_count {σ : Type} (tbl : TableImpl σ) (context : TableContext)
    (st0 : SharedTableInner σ) (ss : SignedStatement) (rf : Option AuthorityId) (D : Hash) :
    List.countP (hasAvailabilityFetchFor D)
        [(SharedTableInner.import_statement tbl context st0 ss rf).2] ≤
      if D ∈ st0.checked_availability then 0 else 1 := by
  cases hv : hasAvailabilityFetchFor D (SharedTableInner.import_statement tbl context st0 ss rf).2 with
  | true =>
    rw [if_neg (imp_avail_fetch tbl context st0 ss rf D hv).1]
    simp [List.countP_cons, hv]
  | false =>
    have : List.countP (hasAvailabilityFetchFor D)
        [(SharedTableInner.import_statement tbl context st0 ss rf).2] = 0 := by
      simp [List.countP_cons, hv]
    rw [this]
    omega

/-- If any producer of one API call carries a validity fetch for `D`,
then `D` is in `checked_validity` afterwards. -/
theorem runOp_val_fetch_mem {σ : Type} (tbl : TableImpl σ) (context : TableContext) (op : TableOp)
    (D : Hash) : ∀ st : SharedTableInner σ,
      0 < (runOp tbl context st op).2.countP (hasValidityFetchFor D) →
      D ∈ (runOp tbl context st op).1.checked_validity := by
  cases op with
  | single s rf => intro st h; exact single_val_fetch_mem tbl context st s rf D h
  | signAndImport s =>
    intro st h
    cases s with
    | candidate c => exact single_val_fetch_mem tbl context _ _ none D h
    | valid x => exact single_val_fetch_mem tbl context _ _ none D h
    | invalid x => exact single_val_fetch_mem tbl context _ _ none D h
    | available x => exact single_val_fetch_mem tbl context _ _ none D h
  | batch items =>
    intro st h
    simp only [runOp] at h ⊢
    induction items generalizing st with
    | nil => simp [SharedTable.import_statements] at h
    | cons hd tl ih =>
      rcases hd with ⟨s, rf⟩
      simp only [SharedTable.import_statements, List.countP_cons] at h ⊢
      cases hv : hasValidityFetchFor D (SharedTableInner.import_statement tbl context st s rf).2 with
      | true =>
        exact imports_cv_mono tbl context tl D _ (imp_val_fetch tbl context st s rf D hv).2
      | false =>
        rw [hv] at h
        simp only [Bool.false_eq_true, if_false, Nat.add_zero] at h
        exact ih _ h

/-- If any producer of one API call carries an availability fetch for
`D`, then `D` is in `checked_availability` afterwards. -/
theorem runOp_avail_fetch_mem {σ : Type} (tbl : TableImpl σ) (context : TableContext) (op : TableOp)
    (D : Hash) : ∀ st : SharedTableInner σ,
      0 < (runOp tbl context st op).2.countP (hasAvailabilityFetchFor D) →
      D ∈ (runOp tbl context st op).1.checked_availability := by
  cases op with
  | single s rf => intro st h; exact single_avail_fetch_mem tbl context st s rf D h
  | signAndImport s =>
    intro st h
    cases s with
    | candidate c => exact single_avail_fetch_mem tbl context _ _ none D h
    | valid x => exact single_avail_fetch_mem tbl context _ _ none D h
    | invalid x => exact single_avail_fetch_mem tbl context _ _ none D h
    | available x => exact single_avail_fetch_mem tbl context _ _ none D h
  | batch items =>
    intro st h
    simp only [runOp] at h ⊢
    induction items generalizing st with
    | nil => simp [SharedTable.import_statements] at h
    | cons hd tl ih =>
      rcases hd with ⟨s, rf⟩
      simp only [SharedTable.import_statements, List.countP_cons] at h ⊢
      cases hv : hasAvailabilityFetchFor D (SharedTableInner.import_statement tbl context st s rf).2 with
      | true =>
        exact imports_ca_mono tbl context tl D _ (imp_avail_fetch tbl context st s rf D hv).2
      | false =>
        rw [hv] at h
        simp only [Bool.false_eq_true, if_false, Nat.add_zero] at h
        exact ih _ h

/-- Validity-fetch count bound for one API call. -/
theorem runOp_val_count {σ : Type} (tbl : TableImpl σ) (context : TableContext) (op : TableOp)
    (D : Hash) : ∀ st : SharedTableInner σ,
      (runOp tbl context st op).2.countP (hasValidityFetchFor D) ≤
        if D ∈ st.checked_validity then 0 else 1 := by
  cases op with
  | single s rf => intro st; exact single_val_count tbl context st s rf D
  | signAndImport s =>
    intro st
    cases s with
    | candidate c => exact single_val_count tbl context _ _ none D
    | valid x => exact single_val_count tbl context _ _ none D
    | invalid x => exact single_val_count tbl context _ _ none D
    | available x => exact single_val_count tbl context _ _ none D
  | batch items => intro st; exact imports_val_count tbl context items D st

/-- Availability-fetch count bound for one API call. -/
theorem runOp_avail_count {σ : Type} (tbl : TableImpl σ) (context : TableContext) (op : TableOp)
    (D : Hash) : ∀ st : SharedTableInner σ,
      (runOp tbl context st op).2.countP (hasAvailabilityFetchFor D) ≤
        if D ∈ st.checked_availability then 0 else 1 := by
  cases op with
  | single s rf => intro st; exact single_avail_count tbl context st s rf D
  | signAndImport s =>
    intro st
    cases s with
    | candidate c => exact single_avail_count tbl context _ _ none D
    | valid x => exact single_avail_count tbl context _ _ none D
    | invalid x => exact single_avail_count tbl context _ _ none D
    | available x => exact single_avail_count tbl context _ _ none D
  | batch items => intro st; exact imports_avail_count tbl context items D st

/-- A call sequence never removes a digest from `checked_validity`. -/
theorem runOps_cv_mono {σ : Type} (tbl : TableImpl σ) (context : TableContext) (ops : List TableOp)
    (x : Hash) : ∀ st : SharedTableInner σ, x ∈ st.checked_validity →
      x ∈ (runOps tbl context st ops).1.checked_validity := by
  induction ops with
  | nil => intro st hx; exact hx
  | cons op ops ih =>
    intro st hx
    simp only [runOps]
    exact ih _ (runOp_cv_mono tbl context op x st hx)

/-- A call sequence never removes a digest from `checked_availability`. -/
theorem runOps_ca_mono {σ : Type} (tbl : TableImpl σ) (context : TableContext) (ops : List TableOp)
    (x : Hash) : ∀ st : SharedTableInner σ, x ∈ st.checked_availability →
      x ∈ (runOps tbl context st ops).1.checked_availability := by
  induction ops with
  | nil => intro st hx; exact hx
  | cons op ops ih =>
    intro st hx
    simp only [runOps]
    exact ih _ (runOp_ca_mono tbl context op x st hx)

/-- Across any call sequence, at most one returned producer (none once
`D` is checked) carries a validity fetch for `D`. -/
theorem runOps_val_count {σ : Type} (tbl : TableImpl σ) (context : TableContext) (ops : List TableOp)
    (D : Hash) : ∀ st : SharedTableInner σ,
      (runOps tbl context st ops).2.countP (hasValidityFetchFor D) ≤
        if D ∈ st.checked_validity then 0 else 1 := by
  induction ops with
  | nil => intro st; simp [runOps]
  | cons op ops ih =>
    intro st
    simp only [runOps, List.countP_append]
    have hhead := runOp_val_count tbl context op D st
    have htail := ih (runOp tbl context st op).1
    rcases Nat.eq_zero_or_pos ((runOp tbl context st op).2.countP (hasValidityFetchFor D)) with h0 | hpos
    · rw [h0, Nat.zero_add]
      by_cases hst : D ∈ st.checked_validity
      · rw [if_pos (runOp_cv_mono tbl context op D st hst)] at htail
        rw [if_pos hst]
        omega
      · rw [if_neg hst]
        refine le_trans htail ?_
        split <;> omega
    · have hmem := runOp_val_fetch_mem tbl context op D st hpos
      rw [if_pos hmem] at htail
      by_cases hst : D ∈ st.checked_validity
      · rw [if_pos hst] at hhead
        omega
      · rw [if_neg hst] at hhead ⊢
        omega

/-- Across any call sequence, at most one returned producer carries an
availability fetch for `D`. -/
theorem runOps_avail_count {σ : Type} (tbl : TableImpl σ) (context : TableContext) (ops : List TableOp)
    (D : Hash) : ∀ st : SharedTableInner σ,
      (runOps tbl context st ops).2.countP (hasAvailabilityFetchFor D) ≤
        if D ∈ st.checked_availability then 0 else 1 := by
  induction ops with
  | nil => intro st; simp [runOps]
  | cons op ops ih =>
    intro st
    simp only [runOps, List.countP_append]
    have hhead := runOp_avail_count tbl context op D st
    have htail := ih (runOp tbl context st op).1
    rcases Nat.eq_zero_or_pos ((runOp tbl context st op).2.countP (hasAvailabilityFetchFor D)) with h0 | hpos
    · rw [h0, Nat.zero_add]
      by_cases hst : D ∈ st.checked_availability
      · rw [if_pos (runOp_ca_mono tbl context op D st hst)] at htail
        rw [if_pos hst]
        omega
      · rw [if_neg hst]
        refine le_trans htail ?_
        split <;> omega
    · have hmem := runOp_avail_fetch_mem tbl context op D st hpos
      rw [if_pos hmem] at htail
      by_cases hst : D ∈ st.checked_availability
      · rw [if_pos hst] at hhead
        omega
      · rw [if_neg hst] at hhead ⊢
        omega

/-- Self-trust for a one-producer list: while `proposed_digest = some D`,
no validity fetch for `D` is scheduled and the proposal survives. -/
theorem single_selftrust {σ : Type} (tbl : TableImpl σ) (context : TableContext)
    (st0 : SharedTableInner σ) (ss : SignedStatement) (rf : Option AuthorityId) (D : Hash)
    (hprop : st0.proposed_digest = some D) :
    List.countP (hasValidityFetchFor D)
        [(SharedTableInner.import_statement tbl context st0 ss rf).2] = 0 ∧
    (SharedTableInner.import_statement tbl context st0 ss rf).1.proposed_digest = some D := by
  constructor
  · simp [List.countP_cons, imp_selftrust tbl context st0 ss rf D hprop]
  · rw [imp_proposed]
    exact hprop

/-- `sign_and_import` of a `Candidate` with receipt hash `D` schedules no
validity fetch for `D` and leaves `proposed_digest = some D`, from any
starting state. -/
theorem signAndImport_candidate_selftrust {σ : Type} (tbl : TableImpl σ) (context : TableContext)
    (st : SharedTableInner σ) (c : CandidateReceipt) (D : Hash) (hD : c.hash = D) :
    (runOp tbl context st (.signAndImport (.candidate c))).2.countP (hasValidityFetchFor D) = 0 ∧
    (runOp tbl context st (.signAndImport (.candidate c))).1.proposed_digest = some D := by
  exact single_selftrust tbl context
    { st with proposed_digest := some c.hash } (context.sign_statement (.candidate c)) none D
    (by simp [hD])

/-- Self-trust for one API call that keeps the proposal at `D`. -/
theorem runOp_selftrust {σ : Type} (tbl : TableImpl σ) (context : TableContext) (op : TableOp)
    (D : Hash) (hk : keepsProposal D op = true) :
    ∀ st : SharedTableInner σ, st.proposed_digest = some D →
      (runOp tbl context st op).2.countP (hasValidityFetchFor D) = 0 ∧
      (runOp tbl context st op).1.proposed_digest = some D := by
  cases op with
  | single s rf => intro st hprop; exact single_selftrust tbl context st s rf D hprop
  | signAndImport s =>
    intro st hprop
    cases s with
    | candidate c =>
      exact signAndImport_candidate_selftrust tbl context st c D (of_decide_eq_true hk)
    | valid x => exact single_selftrust tbl context _ _ none D hprop
    | invalid x => exact single_selftrust tbl context _ _ none D hprop
    | available x => exact single_selftrust tbl context _ _ none D hprop
  | batch items =>
    intro st hprop
    refine ⟨imports_selftrust tbl context items D st hprop, ?_⟩
    simp only [runOp]
    rw [imports_proposed]
    exact hprop

/-- Self-trust across a call sequence that keeps the proposal at `D`. -/
theorem runOps_selftrust {σ : Type} (tbl : TableImpl σ) (context : TableContext) (ops : List TableOp)
    (D : Hash) (hk : ∀ op ∈ ops, keepsProposal D op = true) :
    ∀ st : SharedTableInner σ, st.proposed_digest = some D →
      (runOps tbl context st ops).2.countP (hasValidityFetchFor D) = 0 ∧
      (runOps tbl context st ops).1.proposed_digest = some D := by
  induction ops with
  | nil => intro st hprop; exact ⟨by simp [runOps], hprop⟩
  | cons op ops ih =>
    intro st hprop
    obtain ⟨hhead, hprop1⟩ := runOp_selftrust tbl context op D (hk op (by simp)) st hprop
    obtain ⟨htail, hprop2⟩ := ih (fun o ho => hk o (by simp [ho])) (runOp tbl context st op).1 hprop1
    refine ⟨?_, hprop2⟩
    simp only [runOps, List.countP_append]
    omega

/-- C1: on a fresh `SharedTable`, across any sequence of
`import_statement`, `sign_and_import` and `import_statements` calls, at
most one returned producer ever carries a block-data (validity) fetch for
a digest `D` and at most one ever carries an extrinsic (availability)
fetch for `D`; and a digest inserted into `checked_validity` or
`checked_availability` is never removed by any call sequence. -/
theorem validity_availability_fetch_dedup {σ : Type} (groups : List (ParaId × GroupInfo))
    (key : Pair) (parent_hash : Hash) (t0 : σ) (tbl : TableImpl σ) (ops : List TableOp) (D : Hash) :
    ((runOps tbl (SharedTable.new groups key parent_hash t0).1
        (SharedTable.new groups key parent_hash t0).2 ops).2.countP (hasValidityFetchFor D)) ≤ 1 ∧
    ((runOps tbl (SharedTable.new groups key parent_hash t0).1
        (SharedTable.new groups key parent_hash t0).2 ops).2.countP (hasAvailabilityFetchFor D)) ≤ 1 ∧
    (∀ (st : SharedTableInner σ) (x : Hash),
      (x ∈ st.checked_validity →
        x ∈ (runOps tbl (SharedTable.new groups key parent_hash t0).1 st ops).1.checked_validity) ∧
      (x ∈ st.checked_availability →
        x ∈ (runOps tbl (SharedTable.new groups key parent_hash t0).1 st ops).1.checked_availability)) := by
  refine ⟨?_, ?_, fun st x =>
    ⟨runOps_cv_mono tbl (SharedTable.new groups key parent_hash t0).1 ops x st,
     runOps_ca_mono tbl (SharedTable.new groups key parent_hash t0).1 ops x st⟩⟩
  · have h := runOps_val_count tbl (SharedTable.new groups key parent_hash t0).1 ops D
      (SharedTable.new groups key parent_hash t0).2
    simpa using h
  · have h := runOps_avail_count tbl (SharedTable.new groups key parent_hash t0).1 ops D
      (SharedTable.new groups key parent_hash t0).2
    simpa using h

/-- Witness for C1 on a concrete table, round and call sequence. -/
theorem validity_availability_fetch_dedup_witness :
    ((runOps listTable (SharedTable.new [(0, groupA)] keyLocal hashC ([] : List CandidateReceipt)).1
        (SharedTable.new [(0, groupA)] keyLocal hashC ([] : List CandidateReceipt)).2
        replacedProposalOps).2.countP (hasValidityFetchFor hashA)) ≤ 1 ∧
    ((runOps listTable (SharedTable.new [(0, groupA)] keyLocal hashC ([] : List CandidateReceipt)).1
        (SharedTable.new [(0, groupA)] keyLocal hashC ([] : List CandidateReceipt)).2
        replacedProposalOps).2.countP (hasAvailabilityFetchFor hashA)) ≤ 1 ∧
    (∀ (st : SharedTableInner (List CandidateReceipt)) (x : Hash),
      (x ∈ st.checked_validity →
        x ∈ (runOps listTable (SharedTable.new [(0, groupA)] keyLocal hashC ([] : List CandidateReceipt)).1
          st replacedProposalOps).1.checked_validity) ∧
      (x ∈ st.checked_availability →
        x ∈ (runOps listTable (SharedTable.new [(0, groupA)] keyLocal hashC ([] : List CandidateReceipt)).1
          st replacedProposalOps).1.checked_availability)) :=
  validity_availability_fetch_dedup [(0, groupA)] keyLocal hashC [] listTable replacedProposalOps hashA

/-- C2 counterexample: `sign_and_import` of `Candidate(receiptA)` (receipt
hash `hashA`) is followed by `sign_and_import` of a different candidate,
which replaces `proposed_digest`; the subsequent import of a remote
`Valid(hashA)` then does schedule a block-data fetch for `hashA` — the
third returned producer carries a validity fetch for it. -/
theorem self_trust_replaced_proposal_cex :
    receiptA.hash = hashA ∧
    ((runOps listTable (SharedTable.new [(0, groupA)] keyLocal hashC ([] : List CandidateReceipt)).1
        (SharedTable.new [(0, groupA)] keyLocal hashC ([] : List CandidateReceipt)).2
        replacedProposalOps).2.map (hasValidityFetchFor hashA)) = [false, false, true] := by
  constructor
  · rfl
  · decide

/-- C2 (amended): after `sign_and_import` of a `Candidate` whose receipt
hash is `D`, no subsequent call schedules a block-data fetch for `D` —
provided no later `sign_and_import` of a `Candidate` with a different
receipt hash replaces `proposed_digest` in between. -/
theorem self_trust_while_proposed {σ : Type} (tbl : TableImpl σ) (context : TableContext)
    (st : SharedTableInner σ) (c : CandidateReceipt) (D : Hash) (ops : List TableOp)
    (hD : c.hash = D) (hkeep : ∀ op ∈ ops, keepsProposal D op = true) :
    ((runOps tbl context st (TableOp.signAndImport (.candidate c) :: ops)).2.countP
      (hasValidityFetchFor D)) = 0 := by
  obtain ⟨hhead, hprop⟩ := signAndImport_candidate_selftrust tbl context st c D hD
  obtain ⟨htail, _⟩ := runOps_selftrust tbl context ops D hkeep
    (runOp tbl context st (.signAndImport (.candidate c))).1 hprop
  simp only [runOps, List.countP_append]
  omega

/-- Witness for the amended C2 on a concrete round: propose
`Candidate(receiptA)`, then import a remote `Valid(hashA)`; no producer
carries a validity fetch for `hashA`. -/
theorem self_trust_while_proposed_witness :
    receiptA.hash = hashA ∧
    (∀ op ∈ [TableOp.single remoteValidA none], keepsProposal hashA op = true) ∧
    ((runOps listTable ctxA
        (SharedTable.new [(0, groupA)] keyLocal hashC ([] : List CandidateReceipt)).2
        (TableOp.signAndImport (.candidate receiptA) :: [TableOp.single remoteValidA none])).2.countP
      (hasValidityFetchFor hashA)) = 0 :=
  ⟨rfl, by decide,
   self_trust_while_proposed listTable ctxA
     (SharedTable.new [(0, groupA)] keyLocal hashC ([] : List CandidateReceipt)).2
     receiptA hashA [TableOp.single remoteValidA none] rfl (by decide)⟩

/-- C9: when the table reports no progress (`None` summary), the import
returns immediately with a producer carrying no fetches, and the dedup
sets and `proposed_digest` are unchanged. -/
theorem no_progress_import_is_noop {σ : Type} (tbl : TableImpl σ) (context : TableContext)
    (self : SharedTableInner σ) (statement : SignedStatement) (received_from : Option AuthorityId)
    (t' : σ)
    (htbl : tbl.import_statement self.table context statement received_from = (t', none)) :
    (SharedTableInner.import_statement tbl context self statement received_from).2.fetch_block_data = none ∧
    (SharedTableInner.import_statement tbl context self statement received_from).2.fetch_extrinsic = none ∧
    (SharedTableInner.import_statement tbl context self statement received_from).1.checked_validity =
      self.checked_validity ∧
    (SharedTableInner.import_statement tbl context self statement received_from).1.checked_availability =
      self.checked_availability ∧
    (SharedTableInner.import_statement tbl context self statement received_from).1.proposed_digest =
      self.proposed_digest := by
  unfold SharedTableInner.import_statement
  rw [htbl]
  exact ⟨rfl, rfl, rfl, rfl, rfl⟩

/-- Witness for C9 on a table implementation that makes no progress. -/
theorem no_progress_import_is_noop_witness :
    stuckTable.import_statement () ctxA remoteValidA none = ((), none) ∧
    ((SharedTableInner.import_statement stuckTable ctxA
        (SharedTable.new [(0, groupA)] keyLocal hashC ()).2 remoteValidA none).2.fetch_block_data = none ∧
     (SharedTableInner.import_statement stuckTable ctxA
        (SharedTable.new [(0, groupA)] keyLocal hashC ()).2 remoteValidA none).2.fetch_extrinsic = none ∧
     (SharedTableInner.import_statement stuckTable ctxA
        (SharedTable.new [(0, groupA)] keyLocal hashC ()).2 remoteValidA none).1.checked_validity =
       (SharedTable.new [(0, groupA)] keyLocal hashC ()).2.checked_validity ∧
     (SharedTableInner.import_statement stuckTable ctxA
        (SharedTable.new [(0, groupA)] keyLocal hashC ()).2 remoteValidA none).1.checked_availability =
       (SharedTable.new [(0, groupA)] keyLocal hashC ()).2.checked_availability ∧
     (SharedTableInner.import_statement stuckTable ctxA
        (SharedTable.new [(0, groupA)] keyLocal hashC ()).2 remoteValidA none).1.proposed_digest =
       (SharedTable.new [(0, groupA)] keyLocal hashC ()).2.proposed_digest) :=
  ⟨rfl, no_progress_import_is_noop stuckTable ctxA
    (SharedTable.new [(0, groupA)] keyLocal hashC ()).2 remoteValidA none () rfl⟩

/-- C10: when a checking flag is determined `true` but the table stores no
receipt for the summary's digest, no fetch is scheduled on the returned
producer, yet the digest is already in the corresponding dedup set of the
new state, so no later call sequence ever schedules that fetch for it. -/
theorem missing_receipt_marks_checked {σ : Type} (tbl : TableImpl σ) (context : TableContext)
    (self : SharedTableInner σ) (statement : SignedStatement) (received_from : Option AuthorityId)
    (t' : σ) (su : Summary) (ops : List TableOp)
    (htbl : tbl.import_statement self.table context statement received_from = (t', some su))
    (hget : tbl.get_candidate t' su.candidate = none) :
    ((SharedTableInner.import_statement tbl context self statement received_from).2.fetch_block_data = none ∧
     (SharedTableInner.import_statement tbl context self statement received_from).2.fetch_extrinsic = none) ∧
    ((context.is_member_of context.local_id su.group_id &&
        (self.proposed_digest.elim true fun d => decide (d ≠ su.candidate))) = true →
      su.candidate ∉ self.checked_validity →
      su.candidate ∈ (SharedTableInner.import_statement tbl context self statement received_from).1.checked_validity ∧
      (runOps tbl context (SharedTableInner.import_statement tbl context self statement received_from).1
        ops).2.countP (hasValidityFetchFor su.candidate) = 0) ∧
    (context.is_availability_guarantor_of context.local_id su.group_id = true →
      su.candidate ∉ self.checked_availability →
      su.candidate ∈ (SharedTableInner.import_statement tbl context self statement received_from).1.checked_availability ∧
      (runOps tbl context (SharedTableInner.import_statement tbl context self statement received_from).1
        ops).2.countP (hasAvailabilityFetchFor su.candidate) = 0) := by
  have hfetch :
      (SharedTableInner.import_statement tbl context self statement received_from).2.fetch_block_data = none ∧
      (SharedTableInner.import_statement tbl context self statement received_from).2.fetch_extrinsic = none := by
    unfold SharedTableInner.import_statement
    rw [htbl]
    dsimp only
    rw [hget]
    refine ⟨?_, ?_⟩ <;> (repeat' split) <;> simp_all
  have hcv : (context.is_member_of context.local_id su.group_id &&
        (self.proposed_digest.elim true fun d => decide (d ≠ su.candidate))) = true →
      su.candidate ∉ self.checked_validity →
      su.candidate ∈ (SharedTableInner.import_statement tbl context self statement received_from).1.checked_validity := by
    intro hm hnot
    unfold SharedTableInner.import_statement
    rw [htbl]
    dsimp only
    rw [hm]
    unfold hsInsert
    rw [if_neg hnot]
    exact List.mem_cons_self _ _
  have hca : context.is_availability_guarantor_of context.local_id su.group_id = true →
      su.candidate ∉ self.checked_availability →
      su.candidate ∈ (SharedTableInner.import_statement tbl context self statement received_from).1.checked_availability := by
    intro hm hnot
    unfold SharedTableInner.import_statement
    rw [htbl]
    dsimp only
    rw [hm]
    unfold hsInsert
    rw [if_neg hnot]
    exact List.mem_cons_self _ _
  refine ⟨hfetch, fun hm hnot => ⟨hcv hm hnot, ?_⟩, fun hm hnot => ⟨hca hm hnot, ?_⟩⟩
  · have h := runOps_val_count tbl context ops su.candidate
      (SharedTableInner.import_statement tbl context self statement received_from).1
    rw [if_pos (hcv hm hnot)] at h
    omega
  · have h := runOps_avail_count tbl context ops su.candidate
      (SharedTableInner.import_statement tbl context self statement received_from).1
    rw [if_pos (hca hm hnot)] at h
    omega

/-- Witness for C10 on a table implementation that reports summaries but
stores no receipts. -/
theorem missing_receipt_marks_checked_witness :
    inconsistentTable.import_statement () ctxBoth remoteValidA none =
      ((), some { candidate := hashA, group_id := 0 }) ∧
    inconsistentTable.get_candidate () hashA = none ∧
    (((SharedTableInner.import_statement inconsistentTable ctxBoth
        (SharedTable.new ctxBoth.groups keyLocal hashC ()).2 remoteValidA none).2.fetch_block_data = none ∧
      (SharedTableInner.import_statement inconsistentTable ctxBoth
        (SharedTable.new ctxBoth.groups keyLocal hashC ()).2 remoteValidA none).2.fetch_extrinsic = none) ∧
     ((ctxBoth.is_member_of ctxBoth.local_id 0 &&
         ((SharedTable.new ctxBoth.groups keyLocal hashC ()).2.proposed_digest.elim true
           fun d => decide (d ≠ hashA))) = true →
       hashA ∉ (SharedTable.new ctxBoth.groups keyLocal hashC ()).2.checked_validity →
       hashA ∈ (SharedTableInner.import_statement inconsistentTable ctxBoth
         (SharedTable.new ctxBoth.groups keyLocal hashC ()).2 remoteValidA none).1.checked_validity ∧
       (runOps inconsistentTable ctxBoth
         (SharedTableInner.import_statement inconsistentTable ctxBoth
           (SharedTable.new ctxBoth.groups keyLocal hashC ()).2 remoteValidA none).1
         [TableOp.single remoteValidA none]).2.countP (hasValidityFetchFor hashA) = 0) ∧
     (ctxBoth.is_availability_guarantor_of ctxBoth.local_id 0 = true →
       hashA ∉ (SharedTable.new ctxBoth.groups keyLocal hashC ()).2.checked_availability →
       hashA ∈ (SharedTableInner.import_statement inconsistentTable ctxBoth
         (SharedTable.new ctxBoth.groups keyLocal hashC ()).2 remoteValidA none).1.checked_availability ∧
       (runOps inconsistentTable ctxBoth
         (SharedTableInner.import_statement inconsistentTable ctxBoth
           (SharedTable.new ctxBoth.groups keyLocal hashC ()).2 remoteValidA none).1
         [TableOp.single remoteValidA none]).2.countP (hasAvailabilityFetchFor hashA) = 0)) :=
  ⟨rfl, rfl,
   missing_receipt_marks_checked inconsistentTable ctxBoth
     (SharedTable.new ctxBoth.groups keyLocal hashC ()).2 remoteValidA none ()
     { candidate := hashA, group_id := 0 } [TableOp.single remoteValidA none] rfl rfl⟩

/-- A spent fuse polls to `NotReady` and stays unchanged. -/
theorem fusePoll_spent {α ε : Type} (f : Fuse α ε) (h : f.spent = true) :
    Fuse.poll f = (.notReady, f) := by
  unfold Fuse.poll
  rw [if_pos h]

/-- A fuse that just returned an error is spent. -/
theorem fusePoll_err_spent {α ε : Type} (f : Fuse α ε) (e : ε) :
    (Fuse.poll f).1 = .err e → (Fuse.poll f).2.spent = true := by
  unfold Fuse.poll
  split
  · intro h; simp at h
  · split
    · intro h; simp at h
    · intro _; rfl
    · intro h; simp at h

/-- One poll of a producer holding a present spent fuse is never `Ready`,
and the spent fuse stays present. -/
theorem spent_step {ε : Type} (self : PollProducer ε) (h : spentPresent self) :
    (producerPoll self).1.isReady = false ∧ spentPresent (producerPoll self).2 := by
  unfold producerPoll pollRest pollFinish
  rcases h with ⟨f, hf, hspent⟩ | ⟨g, hg, hspent⟩
  · rw [hf]
    dsimp only
    rw [fusePoll_spent f hspent]
    dsimp only
    rcases hge : self.fetch_extrinsic with _ | g
    · exact ⟨rfl, Or.inl ⟨f, rfl, hspent⟩⟩
    · dsimp only
      rcases hpoll : Fuse.poll g with ⟨r, g1⟩
      cases r with
      | ready a => exact ⟨rfl, Or.inl ⟨f, rfl, hspent⟩⟩
      | err e => exact ⟨rfl, Or.inl ⟨f, rfl, hspent⟩⟩
      | notReady => exact ⟨rfl, Or.inl ⟨f, rfl, hspent⟩⟩
  · rcases hbe : self.fetch_block_data with _ | f
    · dsimp only
      rw [hg]
      dsimp only
      rw [fusePoll_spent g hspent]
      exact ⟨rfl, Or.inr ⟨g, rfl, hspent⟩⟩
    · dsimp only
      rcases hpoll : Fuse.poll f with ⟨r, f1⟩
      cases r with
      | ready a => exact ⟨rfl, Or.inr ⟨g, hg, hspent⟩⟩
      | err e => exact ⟨rfl, Or.inr ⟨g, hg, hspent⟩⟩
      | notReady =>
        dsimp only
        rw [hg]
        dsimp only
        rw [fusePoll_spent g hspent]
        exact ⟨rfl, Or.inr ⟨g, rfl, hspent⟩⟩

/-- A producer holding a present spent fuse never becomes `Ready`, at any
later poll. -/
theorem spent_never {ε : Type} : ∀ (n : Nat) (self : PollProducer ε), spentPresent self →
    (pollIter self n).1.isReady = false := by
  intro n
  induction n with
  | zero => intro self h; exact (spent_step self h).1
  | succ n ih => intro self h; exact ih (producerPoll self).2 (spent_step self h).2

/-- C8: if the first sub-fetch polled in a producer poll fails, the
producer's poll returns that same error (the producer's error type is the
fetch error type by construction), and the producer never yields a
`ProducedStatements` at any later poll: no partial statements are
emitted. -/
theorem fetch_error_aborts_producer (ε : Type) (sp : PollProducer ε) (e : ε) (n : Nat)
    (h : (∃ f, sp.fetch_block_data = some f ∧ (Fuse.poll f).1 = FetchPoll.err e) ∨
      ((sp.fetch_block_data = none ∨
        ∃ f, sp.fetch_block_data = some f ∧ (Fuse.poll f).1 = FetchPoll.notReady) ∧
       ∃ g, sp.fetch_extrinsic = some g ∧ (Fuse.poll g).1 = FetchPoll.err e)) :
    (producerPoll sp).1 = .err e ∧
    (pollIter (producerPoll sp).2 n).1.isReady = false := by
  have key : (producerPoll sp).1 = .err e ∧ spentPresent (producerPoll sp).2 := by
    unfold producerPoll pollRest pollFinish
    rcases h with ⟨f, hf, herr⟩ | ⟨hb, g, hg, herr⟩
    · rw [hf]
      dsimp only
      rcases hpoll : Fuse.poll f with ⟨r, f1⟩
      rw [hpoll] at herr
      dsimp only at herr
      subst herr
      have hsp := fusePoll_err_spent f e (by rw [hpoll])
      rw [hpoll] at hsp
      exact ⟨rfl, Or.inl ⟨f1, rfl, hsp⟩⟩
    · rcases hb with hnone | ⟨f, hf, hnr⟩
      · rw [hnone]
        dsimp only
        rw [hg]
        dsimp only
        rcases hpoll : Fuse.poll g with ⟨r, g1⟩
        rw [hpoll] at herr
        dsimp only at herr
        subst herr
        have hsp := fusePoll_err_spent g e (by rw [hpoll])
        rw [hpoll] at hsp
        exact ⟨rfl, Or.inr ⟨g1, rfl, hsp⟩⟩
      · rw [hf]
        dsimp only
        rcases hpoll : Fuse.poll f with ⟨r, f1⟩
        rw [hpoll] at hnr
        dsimp only at hnr
        subst hnr
        dsimp only
        rw [hg]
        dsimp only
        rcases hpoll2 : Fuse.poll g with ⟨r2, g1⟩
        rw [hpoll2] at herr
        dsimp only at herr
        subst herr
        have hsp := fusePoll_err_spent g e (by rw [hpoll2])
        rw [hpoll2] at hsp
        exact ⟨rfl, Or.inr ⟨g1, rfl, hsp⟩⟩
  exact ⟨key.1, spent_never n _ key.2⟩

/-- Witness for C8: a producer whose block-data fetch errors on the first
poll returns that error, and the next three polls are never `Ready`. -/
theorem fetch_error_aborts_producer_witness :
    (∃ f, erroringProducer.fetch_block_data = some f ∧ (Fuse.poll f).1 = FetchPoll.err 7) ∧
    ((producerPoll erroringProducer).1 = .err 7 ∧
     (pollIter (producerPoll erroringProducer).2 2).1.isReady = false) :=
  ⟨⟨{ behavior := fun _ => .err 7, polled := 0, spent := false }, rfl, rfl⟩,
   fetch_error_aborts_producer Nat erroringProducer 7 2
     (Or.inl ⟨{ behavior := fun _ => .err 7, polled := 0, spent := false }, rfl, rfl⟩)⟩
